import Mathlib

/-!
# Verification of the smart-router core

A shallow embedding of the cost-aware routing core (telemetry ring,
circuit breaker, cost estimator, routing policy, dispatcher) translated
from the TypeScript sources, together with theorems checking the
specification's claims against it.

Conventions of the embedding:
* JS numbers are modelled as `ℚ` (money, scores, weights) or `ℤ`
  (timestamps, latencies); integer token counts as `ℤ`.
* `Date.now()` is modelled by an explicit `now : ℤ` parameter.
* `Math.random()` draws are modelled by explicit streams `ℕ → ℚ`
  indexed by the candidate's position in the provider list.
* JS `Map` objects are modelled as total functions with a default.
* JS truthiness tests on numbers/strings are modelled as `≠ 0` /
  `≠ ""`; `undefined` is modelled by `Option`.
-/

namespace SmartRouter

/-- Outcome of one provider call (`telemetry.ts`). -/
inductive Outcome
  | success
  | failure
  | timeout
deriving DecidableEq, Repr

/-- One telemetry record (`telemetry.ts`, `TelemetryRecord`). -/
structure TelemetryRecord where
  provider : String
  modelType : String
  latencyMs : ℤ
  timestamp : ℤ
  outcome : Outcome
deriving DecidableEq, Repr

/-- Derived statistics (`telemetry.ts`, `TelemetryStats`). -/
structure TelemetryStats where
  count : ℕ
  success : ℕ
  failure : ℕ
  timeout : ℕ
  p50Latency : Option ℤ
  p95Latency : Option ℤ
deriving DecidableEq, Repr

/-- The `provider::modelType` key used by both Telemetry and
CircuitBreaker (`private key(...)` in the sources). -/
def tkey (provider modelType : String) : String :=
  provider ++ "::" ++ modelType

/-- Telemetry store: per-key bounded ring of records, modelled as a
total function from key to the current list of records. -/
structure Telemetry where
  windowSize : ℕ
  store : String → List TelemetryRecord

/-- A fresh telemetry store (`new Telemetry(windowSize)`). -/
def Telemetry.empty (windowSize : ℕ) : Telemetry :=
  ⟨windowSize, fun _ => []⟩

/-- `Telemetry.record`: append to the key's ring; if the ring exceeds
the window size, `splice` drops from the head down to the window. -/
def Telemetry.record (t : Telemetry) (rec : TelemetryRecord) : Telemetry :=
  let k := tkey rec.provider rec.modelType
  let arr := t.store k ++ [rec]
  let arr2 := if arr.length > t.windowSize then arr.drop (arr.length - t.windowSize) else arr
  ⟨t.windowSize, fun k2 => if k2 = k then arr2 else t.store k2⟩

/-- `private percentile(sortedLatencies, p)`: nearest-rank selection at
index `min (n-1) (max 0 ⌊p·(n-1)⌋)`; `null` on the empty list. -/
def percentileAt (sortedLatencies : List ℤ) (p : ℚ) : Option ℤ :=
  if sortedLatencies.length = 0 then none
  else
    let idx := min (sortedLatencies.length - 1)
      (max 0 ⌊p * ((sortedLatencies.length : ℚ) - 1)⌋).toNat
    some (sortedLatencies.getD idx 0)

/-- `Telemetry.getStats`: outcome tallies plus p50/p95 of the
ascending-sorted latency vector of the current window. -/
def Telemetry.getStats (t : Telemetry) (provider modelType : String) : TelemetryStats :=
  let arr := t.store (tkey provider modelType)
  let count := arr.length
  if count = 0 then ⟨0, 0, 0, 0, none, none⟩
  else
    let success := (arr.filter (fun a => a.outcome == Outcome.success)).length
    let failure := (arr.filter (fun a => a.outcome == Outcome.failure)).length
    let timeout := (arr.filter (fun a => a.outcome == Outcome.timeout)).length
    let latencies := (arr.map (fun a => a.latencyMs)).insertionSort (· ≤ ·)
    ⟨count, success, failure, timeout, percentileAt latencies (1/2), percentileAt latencies (19/20)⟩

/-- Breaker state (`circuitBreaker.ts` `State`); `opened` renders the
source's `'open'` (a keyword in Lean). -/
inductive BState
  | closed
  | opened
  | halfOpen
deriving DecidableEq, Repr

/-- `CircuitOptions`. -/
structure CircuitOptions where
  failureThreshold : ℕ
  coolOffMs : ℤ
deriving DecidableEq, Repr

/-- Per-key breaker entry (`Entry`). -/
structure BreakerEntry where
  state : BState
  consecutiveFailures : ℕ
  openedAt : Option ℤ
deriving DecidableEq, Repr

/-- Circuit breaker: options plus the per-key entry map. -/
structure CircuitBreaker where
  options : CircuitOptions
  map : String → Option BreakerEntry

/-- `isOpen(provider, modelType)`: true iff the entry is open and still
within its cool-off; an open entry whose cool-off has elapsed (and with
a truthy `openedAt`) is promoted to half-open as a side effect and
`false` is returned.  The mutated breaker is returned alongside. -/
def CircuitBreaker.isOpen (cb : CircuitBreaker) (provider modelType : String)
    (now : ℤ) : Bool × CircuitBreaker :=
  let k := tkey provider modelType
  match cb.map k with
  | none => (false, cb)
  | some e =>
    if e.state = BState.opened then
      match e.openedAt with
      | some t =>
        if t ≠ 0 ∧ now - t ≥ cb.options.coolOffMs then
          (false, ⟨cb.options, fun k2 =>
            if k2 = k then some ⟨BState.halfOpen, e.consecutiveFailures, e.openedAt⟩
            else cb.map k2⟩)
        else (true, cb)
      | none => (true, cb)
    else (false, cb)

/-- `onSuccess`: close the circuit and reset the failure counter (the
source fetches the entry and then overwrites all its fields). -/
def CircuitBreaker.onSuccess (cb : CircuitBreaker) (provider modelType : String) :
    CircuitBreaker :=
  let k := tkey provider modelType
  ⟨cb.options, fun k2 =>
    if k2 = k then some ⟨BState.closed, 0, none⟩ else cb.map k2⟩

/-- `onFailure`: bump the consecutive-failure counter; at or above the
threshold, open the circuit with `openedAt = now`. -/
def CircuitBreaker.onFailure (cb : CircuitBreaker) (provider modelType : String)
    (now : ℤ) : CircuitBreaker :=
  let k := tkey provider modelType
  let e := (cb.map k).getD ⟨BState.closed, 0, none⟩
  let e2 : BreakerEntry :=
    if e.consecutiveFailures + 1 ≥ cb.options.failureThreshold then
      ⟨BState.opened, e.consecutiveFailures + 1, some now⟩
    else
      ⟨e.state, e.consecutiveFailures + 1, e.openedAt⟩
  ⟨cb.options, fun k2 => if k2 = k then some e2 else cb.map k2⟩

/-! ## Cost estimator (`costs.ts`) -/

/-- Per-1K-token rates for one simulated model (`ModelCosts`). -/
structure ModelCosts where
  input : ℚ
  output : ℚ
deriving DecidableEq, Repr

/-- The immutable price book (`costs.json`): named entries plus the
required `"default"` entry used as fallback. -/
structure PriceBook where
  entries : String → Option ModelCosts
  dflt : ModelCosts

/-- `getModelCosts`: rates for a name, falling back to `"default"`. -/
def PriceBook.getModelCosts (pb : PriceBook) (simulatedModelName : String) : ModelCosts :=
  (pb.entries simulatedModelName).getD pb.dflt

/-- `CostEstimateParams`. -/
structure CostEstimateParams where
  promptChars : ℚ
  expectedOutputTokens : Option ℚ
  simulatedModelName : String
  charsPerToken : Option ℚ
  requestFixedFeeUSD : Option ℚ
  discountFactor : Option ℚ
deriving DecidableEq, Repr

/-- `CostEstimate`. -/
structure CostEstimate where
  inputTokens : ℤ
  outputTokens : ℚ
  inputCostUSD : ℚ
  outputCostUSD : ℚ
  fixedFeeUSD : ℚ
  totalUSD : ℚ
  simulatedModelName : String
deriving DecidableEq, Repr

/-- `private estimateTokens(chars, charsPerToken)`. -/
def estimateTokens (chars : ℚ) (charsPerToken : ℚ) : ℤ :=
  ⌈chars / charsPerToken⌉

namespace CostEstimator

/-- `CostEstimator.estimateCost`. -/
def estimateCost (pb : PriceBook) (params : CostEstimateParams) : CostEstimate :=
  let charsPerToken := params.charsPerToken.getD 4
  let requestFixedFeeUSD := params.requestFixedFeeUSD.getD 0
  let discountFactor := params.discountFactor.getD 1
  let inputTokens := estimateTokens params.promptChars charsPerToken
  let outputTokens : ℚ :=
    match params.expectedOutputTokens with
    | some v => if 0 < v then v else (max 1 ⌈(inputTokens : ℚ) * (2/10)⌉ : ℤ)
    | none => (max 1 ⌈(inputTokens : ℚ) * (2/10)⌉ : ℤ)
  let modelCosts := pb.getModelCosts params.simulatedModelName
  let inputCostUSD := ((inputTokens : ℚ) / 1000) * modelCosts.input
  let outputCostUSD := (outputTokens / 1000) * modelCosts.output
  let fixedFeeUSD := requestFixedFeeUSD
  let totalUSD := (inputCostUSD + outputCostUSD + fixedFeeUSD) * discountFactor
  ⟨inputTokens, outputTokens,
   inputCostUSD * discountFactor, outputCostUSD * discountFactor,
   fixedFeeUSD * discountFactor, totalUSD, params.simulatedModelName⟩

/-- `CostEstimator.estimateCostWithVariance`: scale the input/output
costs and the total by `1 + jitter` where `jitter = (rand - 0.5) * 0.1`
for one `Math.random()` draw `rand`; the fixed fee is not varied. -/
def estimateCostWithVariance (pb : PriceBook) (params : CostEstimateParams)
    (rand : ℚ) : CostEstimate :=
  let base := estimateCost pb params
  let jitter := (rand - 1/2) * (1/10)
  let varianceFactor := 1 + jitter
  { base with
    inputCostUSD := base.inputCostUSD * varianceFactor
    outputCostUSD := base.outputCostUSD * varianceFactor
    totalUSD := base.totalUSD * varianceFactor }

end CostEstimator

/-! ## Provider registrations (`types/provider.ts`) -/

/-- Cost-related capability block (`CostCapabilities`). -/
structure CostCapabilities where
  simulatedModelName : String
  tokenCharsPerToken : Option ℚ
  requestFixedFeeUSD : Option ℚ
  discountFactor : Option ℚ
deriving DecidableEq, Repr

/-- Static capability record carried by a registration.  The opaque
handler itself is not represented; the dispatcher model consults an
explicit outcome oracle instead. -/
structure Capabilities where
  typicalLatencyMs : Option ℚ
  jsonReliabilityScore : Option ℚ
  cost : Option CostCapabilities
deriving DecidableEq, Repr

/-- A registered provider (`RegisteredProvider`), minus the handler. -/
structure RegisteredProvider where
  provider : String
  priority : Option ℤ
  capabilities : Option Capabilities
deriving DecidableEq, Repr

/-! ## Routing policy (`policy.ts`) -/

/-- `PolicyOptions`; every field optional as in the source. -/
structure PolicyOptions where
  promptLength : Option ℚ := none
  hasSchema : Option Bool := none
  promptLengthThreshold : Option ℚ := none
  jsonBiasWeight : Option ℚ := none
  latencyWeight : Option ℚ := none
  failurePenalty : Option ℚ := none
  explorationEpsilon : Option ℚ := none
  costWeight : Option ℚ := none
  expectedOutputTokens : Option ℚ := none
  sessionBudget : Option ℚ := none
  sessionSpent : Option ℚ := none
deriving DecidableEq, Repr

/-- The per-candidate stats snapshot stored on a scored provider. -/
structure ScoredStats where
  p95Latency : Option ℤ
  successRatio : Option ℚ
  failureRatio : ℚ
deriving DecidableEq, Repr

/-- `ScoredProvider`. -/
structure ScoredProvider where
  provider : RegisteredProvider
  score : ℚ
  stats : ScoredStats
  costEstimate : Option CostEstimate
deriving DecidableEq, Repr

/-- The option fields of `RoutingPolicy.select` after destructuring
with defaults, plus the derived `isShort` and `effectiveCostWeight`
(both computed once per `select` call). -/
structure ResolvedOptions where
  promptLength : ℚ
  hasSchema : Bool
  promptLengthThreshold : ℚ
  jsonBiasWeight : ℚ
  latencyWeight : ℚ
  failurePenalty : ℚ
  explorationEpsilon : ℚ
  expectedOutputTokens : Option ℚ
  sessionBudget : Option ℚ
  sessionSpent : ℚ
  isShort : Bool
  effectiveCostWeight : ℚ
deriving DecidableEq, Repr

/-- Destructuring prologue of `RoutingPolicy.select` (defaults, the
`isShort` test, and the budget-pressure adjustment of the cost
weight).  `sessionBudget &&` is JS truthiness: present and nonzero. -/
def resolveOptions (options : PolicyOptions) : ResolvedOptions :=
  let promptLength := options.promptLength.getD 0
  let hasSchema := options.hasSchema.getD false
  let promptLengthThreshold := options.promptLengthThreshold.getD 600
  let jsonBiasWeight := options.jsonBiasWeight.getD 1
  let latencyWeight := options.latencyWeight.getD (1/1000)
  let failurePenalty := options.failurePenalty.getD 2
  let explorationEpsilon := options.explorationEpsilon.getD (1/100)
  let costWeight := options.costWeight.getD 1
  let sessionSpent := options.sessionSpent.getD 0
  let isShort := if 0 < promptLength then decide (promptLength < promptLengthThreshold) else false
  let effectiveCostWeight :=
    match options.sessionBudget with
    | some b =>
      if b ≠ 0 ∧ 0 < sessionSpent ∧ 8/10 < sessionSpent / b then costWeight * 2 else costWeight
    | none => costWeight
  ⟨promptLength, hasSchema, promptLengthThreshold, jsonBiasWeight, latencyWeight,
   failurePenalty, explorationEpsilon, options.expectedOutputTokens,
   options.sessionBudget, sessionSpent, isShort, effectiveCostWeight⟩

/-- The candidate's cost estimate in `RoutingPolicy.select`: produced
only when the capability record has a cost block with a truthy
simulated-model name and the prompt length is positive
(`caps.cost?.simulatedModelName && promptLength > 0`). -/
def candidateCostEstimate (pb : PriceBook) (R : ResolvedOptions)
    (p : RegisteredProvider) (rV : ℚ) : Option CostEstimate :=
  match (p.capabilities.getD ⟨none, none, none⟩).cost with
  | some cc =>
    if cc.simulatedModelName ≠ "" ∧ 0 < R.promptLength then
      some (CostEstimator.estimateCostWithVariance pb
        ⟨R.promptLength, R.expectedOutputTokens, cc.simulatedModelName,
         cc.tokenCharsPerToken, cc.requestFixedFeeUSD, cc.discountFactor⟩ rV)
    else none
  | none => none

/-- Body of the per-candidate loop of `RoutingPolicy.select`, for one
candidate that already passed the circuit check.  Returns `none` when
the candidate is excluded by the hard budget ceiling (`continue` in the
source); otherwise the scored candidate.  `rV` and `rE` are this
candidate's `Math.random()` draws for cost variance and exploration. -/
def scoreCandidate (pb : PriceBook) (telemetry : Telemetry) (modelType : String)
    (R : ResolvedOptions) (p : RegisteredProvider) (rV rE : ℚ) :
    Option ScoredProvider :=
  let caps := p.capabilities.getD ⟨none, none, none⟩
  -- base preference: priority (`p.priority ?? 0`)
  let score1 : ℚ := ((p.priority.getD 0 : ℤ) : ℚ)
  let ceOpt : Option CostEstimate := candidateCostEstimate pb R p rV
  let score2 :=
    match ceOpt with
    | some ce => score1 - R.effectiveCostWeight * ce.totalUSD
    | none => score1
  -- hard budget ceiling (`if (sessionBudget) { ... continue }`)
  let budgetExcluded : Bool :=
    match ceOpt, R.sessionBudget with
    | some ce, some b => decide (b ≠ 0 ∧ b - R.sessionSpent < ce.totalUSD)
    | _, _ => false
  if budgetExcluded then none
  else
    let score3 :=
      if R.isShort then
        match caps.typicalLatencyMs with
        | some tl => score2 + 1 / max 1 tl
        | none => score2
      else score2
    let score4 :=
      if R.hasSchema then
        match caps.jsonReliabilityScore with
        | some js => score3 + R.jsonBiasWeight * js
        | none => score3
      else score3
    let stats := telemetry.getStats p.provider modelType
    let failureRatio : ℚ :=
      if 0 < stats.count then ((stats.failure : ℚ) + stats.timeout) / stats.count else 0
    let successRatio : Option ℚ :=
      if 0 < stats.count then some ((stats.success : ℚ) / stats.count) else none
    let p95 := stats.p95Latency
    let score5 :=
      match p95 with
      | some v => score4 - R.latencyWeight * (v : ℚ)
      | none => score4
    let score6 := if 0 < failureRatio then score5 - R.failurePenalty * failureRatio else score5
    let score7 := score6 + rE * R.explorationEpsilon
    some ⟨p, score7, ⟨p95, successRatio, failureRatio⟩, ceOpt⟩

/-- The candidate loop of `RoutingPolicy.select`: skip open circuits
(threading the breaker state mutated by `isOpen`), score the rest, and
collect budget-surviving candidates in input order.  `i` is the
candidate's position in the input list, indexing the random streams. -/
def selectLoop (pb : PriceBook) (telemetry : Telemetry) (modelType : String)
    (R : ResolvedOptions) (now : ℤ) (randV randE : ℕ → ℚ) :
    List RegisteredProvider → ℕ → CircuitBreaker →
    List ScoredProvider × CircuitBreaker
  | [], _, cb => ([], cb)
  | p :: ps, i, cb =>
    let res := cb.isOpen p.provider modelType now
    if res.1 then selectLoop pb telemetry modelType R now randV randE ps (i + 1) res.2
    else
      match scoreCandidate pb telemetry modelType R p (randV i) (randE i) with
      | none => selectLoop pb telemetry modelType R now randV randE ps (i + 1) res.2
      | some sp =>
        let rest := selectLoop pb telemetry modelType R now randV randE ps (i + 1) res.2
        (sp :: rest.1, rest.2)

/-- Stable insertion of a candidate into a score-descending list: it
goes before the first strictly lower score, so ties keep input order —
the behavior of JS stable `sort((a, b) => b.score - a.score)`. -/
def insertByScore (x : ScoredProvider) : List ScoredProvider → List ScoredProvider
  | [] => [x]
  | y :: ys => if y.score < x.score then x :: y :: ys else y :: insertByScore x ys

/-- Stable sort by score descending. -/
def sortByScoreDesc : List ScoredProvider → List ScoredProvider
  | [] => []
  | x :: xs => insertByScore x (sortByScoreDesc xs)

/-- `RoutingPolicy.select`: filter and score the candidates, then sort
best-first.  Returns the scored list together with the circuit-breaker
state as mutated by the `isOpen` queries. -/
def RoutingPolicy.select (telemetry : Telemetry) (circuit : CircuitBreaker)
    (pb : PriceBook) (modelType : String) (providers : List RegisteredProvider)
    (options : PolicyOptions) (now : ℤ) (randV randE : ℕ → ℚ) :
    List ScoredProvider × CircuitBreaker :=
  let R := resolveOptions options
  let res := selectLoop pb telemetry modelType R now randV randE providers 0 circuit
  (sortByScoreDesc res.1, res.2)

/-! ## Dispatcher (`router.ts`) -/

/-- The params blob as inspected by the router: the core reads only
`params.prompt` (when a string), `params.text` (when a string, per the
spec) and the truthiness of `params.schema`. -/
structure Params where
  prompt : Option String
  text : Option String
  schema : Bool
deriving DecidableEq, Repr

/-- Router state: the mutable fields of a `Router` instance together
with its construction-time configuration. -/
structure RouterState where
  telemetry : Telemetry
  circuit : CircuitBreaker
  perCallTimeoutMs : ℤ
  maxRetries : ℕ
  sessionBudget : Option ℚ
  sessionSpent : ℚ

/-- Result of running one handler attempt under the timeout race,
supplied by an oracle indexed by attempt number: either a result (with
the attempt's observed latency and completion timestamp) or an error
(classified as timeout or plain failure, as the `catch` block does). -/
inductive AttemptOutcome
  | ok (latencyMs timestamp : ℤ)
  | err (isTimeout : Bool) (latencyMs timestamp : ℤ)
deriving DecidableEq, Repr

/-- Errors thrown by `useModelWithInfo`. -/
inductive RouterError
  | noProviders
  | allUnavailable
  | exhausted (attemptedProviders : List String) (lastAttemptedProvider : Option String)
deriving DecidableEq, Repr

/-- `typeof params?.prompt === 'string' ? params.prompt.length : 0`
(router.ts line 140).  Note the source never consults `params.text`. -/
def derivedPromptLength (params : Params) : ℚ :=
  match params.prompt with
  | some s => (s.length : ℚ)
  | none => 0

/-- The options record the router passes to `policy.select`
(router.ts lines 142–148): the caller's options spread first, then
overwritten by the derived `promptLength`/`hasSchema` and the ledger
fields. -/
def Router.effectiveOptions (st : RouterState) (params : Params)
    (policyOptions : PolicyOptions) : PolicyOptions :=
  { policyOptions with
    promptLength := some (derivedPromptLength params)
    hasSchema := some params.schema
    sessionBudget := st.sessionBudget
    sessionSpent := some st.sessionSpent }

/-- Mutable state carried through the retry loop. -/
structure LoopState where
  telemetry : Telemetry
  circuit : CircuitBreaker
  spent : ℚ
  attempts : ℕ

/-- The retry loop of `useModelWithInfo` (`for (const rp of ranked)`):
up to `1 + maxRetries` attempts; on success, record telemetry, close
the circuit, charge the candidate's cost estimate if it carried one,
and return; on error, record telemetry (timeout or failure), bump the
circuit, and continue. -/
def runAttempts (modelType : String) (oracle : ℕ → AttemptOutcome) (maxRetries : ℕ) :
    List ScoredProvider → LoopState →
    Option (String × Option CostEstimate) × LoopState
  | [], s => (none, s)
  | sp :: rest, s =>
    if s.attempts > maxRetries then (none, s)
    else
      match oracle s.attempts with
      | AttemptOutcome.ok latency ts =>
        let tel := s.telemetry.record
          ⟨sp.provider.provider, modelType, latency, ts, Outcome.success⟩
        let cb := s.circuit.onSuccess sp.provider.provider modelType
        let spent :=
          match sp.costEstimate with
          | some ce => s.spent + ce.totalUSD
          | none => s.spent
        (some (sp.provider.provider, sp.costEstimate), ⟨tel, cb, spent, s.attempts + 1⟩)
      | AttemptOutcome.err isTimeout latency ts =>
        let tel := s.telemetry.record
          ⟨sp.provider.provider, modelType, latency, ts,
           if isTimeout then Outcome.timeout else Outcome.failure⟩
        let cb := s.circuit.onFailure sp.provider.provider modelType ts
        runAttempts modelType oracle maxRetries rest ⟨tel, cb, s.spent, s.attempts + 1⟩

/-- The hint filter at the top of `useModelWithInfo`: a truthy
`providerHint` restricts the registry's list to that provider. -/
def Router.hintCandidates (providers : List RegisteredProvider)
    (providerHint : Option String) : List RegisteredProvider :=
  match providerHint with
  | some h => if h ≠ "" then providers.filter (fun (p : RegisteredProvider) => p.provider == h) else providers
  | none => providers

/-- `Router.useModelWithInfo`: hint filter, `NoProviders` check, prompt
derivation, ranking (with ledger state injected), `AllUnavailable`
check, then the retry loop; on exhaustion, an error carrying the
attempted providers.  Returns result and post-call router state. -/
def Router.useModelWithInfo (pb : PriceBook) (st : RouterState)
    (providers : List RegisteredProvider) (modelType : String) (params : Params)
    (policyOptions : PolicyOptions) (providerHint : Option String) (now : ℤ)
    (randV randE : ℕ → ℚ) (oracle : ℕ → AttemptOutcome) :
    Except RouterError (String × Option CostEstimate) × RouterState :=
  let candidates := Router.hintCandidates providers providerHint
  if candidates.isEmpty then (Except.error RouterError.noProviders, st)
  else
    let scoredRes := RoutingPolicy.select st.telemetry st.circuit pb modelType candidates
      (Router.effectiveOptions st params policyOptions) now randV randE
    let scored := scoredRes.1
    if scored.isEmpty then
      (Except.error RouterError.allUnavailable, { st with circuit := scoredRes.2 })
    else
      match runAttempts modelType oracle st.maxRetries scored
          ⟨st.telemetry, scoredRes.2, st.sessionSpent, 0⟩ with
      | (some r, ls) =>
        (Except.ok r,
         { st with telemetry := ls.telemetry, circuit := ls.circuit, sessionSpent := ls.spent })
      | (none, ls) =>
        (Except.error (RouterError.exhausted
            ((scored.take ls.attempts).map (fun (sp : ScoredProvider) => sp.provider.provider))
            (((scored.take ls.attempts).map (fun (sp : ScoredProvider) => sp.provider.provider)).getLast?)),
         { st with telemetry := ls.telemetry, circuit := ls.circuit, sessionSpent := ls.spent })

/-! ## Claim theorems -/

/-- Price book for the spec's worked cost example: one known model at
$0.00015 input / $0.0006 output per 1K tokens. -/
def pbC7 : PriceBook :=
  ⟨fun n => if n = "model-a" then some ⟨15/100000, 6/10000⟩ else none, ⟨1, 1⟩⟩

/-- Parameters of the spec's worked cost example: charsPerToken 4.0,
promptChars 400, expectedOutputTokens 100, discountFactor defaulted. -/
def paramsC7 : CostEstimateParams := ⟨400, some 100, "model-a", some 4, none, none⟩

/-- C7: `estimateCost` returns `inputTokens = ⌈promptChars/charsPerToken⌉`;
`outputTokens` is the expected count when provided and positive, else
`max 1 ⌈inputTokens·0.2⌉`; `totalUSD` is the discounted sum of input
cost, output cost and fixed fee with each returned component likewise
scaled; an unknown model name falls back to the default price entry;
and on the worked example the tokens are 100/100 and the total is
$0.0000750. -/
theorem claim_C7_cost_estimator (pb : PriceBook) (params : CostEstimateParams) :
    (CostEstimator.estimateCost pb params).inputTokens
      = ⌈params.promptChars / params.charsPerToken.getD 4⌉
    ∧ (∀ v, params.expectedOutputTokens = some v → 0 < v →
        (CostEstimator.estimateCost pb params).outputTokens = v)
    ∧ ((∀ v, params.expectedOutputTokens = some v → ¬ 0 < v) →
        (CostEstimator.estimateCost pb params).outputTokens
          = ((max 1 ⌈((CostEstimator.estimateCost pb params).inputTokens : ℚ) * (2/10)⌉ : ℤ) : ℚ))
    ∧ (CostEstimator.estimateCost pb params).totalUSD
        = (((CostEstimator.estimateCost pb params).inputTokens : ℚ) / 1000
              * (pb.getModelCosts params.simulatedModelName).input
            + (CostEstimator.estimateCost pb params).outputTokens / 1000
              * (pb.getModelCosts params.simulatedModelName).output
            + params.requestFixedFeeUSD.getD 0) * params.discountFactor.getD 1
    ∧ (CostEstimator.estimateCost pb params).inputCostUSD
        = ((CostEstimator.estimateCost pb params).inputTokens : ℚ) / 1000
            * (pb.getModelCosts params.simulatedModelName).input * params.discountFactor.getD 1
    ∧ (CostEstimator.estimateCost pb params).outputCostUSD
        = (CostEstimator.estimateCost pb params).outputTokens / 1000
            * (pb.getModelCosts params.simulatedModelName).output * params.discountFactor.getD 1
    ∧ (CostEstimator.estimateCost pb params).fixedFeeUSD
        = params.requestFixedFeeUSD.getD 0 * params.discountFactor.getD 1
    ∧ (pb.entries params.simulatedModelName = none →
        pb.getModelCosts params.simulatedModelName = pb.dflt)
    ∧ (CostEstimator.estimateCost pbC7 paramsC7).inputTokens = 100
    ∧ (CostEstimator.estimateCost pbC7 paramsC7).outputTokens = 100
    ∧ (CostEstimator.estimateCost pbC7 paramsC7).totalUSD = 75/1000000 := by
  have hconc : (CostEstimator.estimateCost pbC7 paramsC7).inputTokens = 100
      ∧ (CostEstimator.estimateCost pbC7 paramsC7).outputTokens = 100
      ∧ (CostEstimator.estimateCost pbC7 paramsC7).totalUSD = 75/1000000 := by
    norm_num [CostEstimator.estimateCost, estimateTokens, PriceBook.getModelCosts, pbC7, paramsC7]
  refine ⟨?_, ?_, ?_, ?_, ?_, ?_, ?_, ?_, hconc.1, hconc.2.1, hconc.2.2⟩
  · simp [CostEstimator.estimateCost, estimateTokens]
  · intro v hv hpos
    simp [CostEstimator.estimateCost, hv, hpos]
  · intro h
    rcases hev : params.expectedOutputTokens with _ | v
    · simp [CostEstimator.estimateCost, estimateTokens, hev]
    · have := h v hev
      simp [CostEstimator.estimateCost, estimateTokens, hev, this]
  · rcases hev : params.expectedOutputTokens with _ | v
    · simp [CostEstimator.estimateCost, estimateTokens, hev]
    · by_cases hpos : (0:ℚ) < v <;>
        simp [CostEstimator.estimateCost, estimateTokens, hev, hpos]
  · rcases hev : params.expectedOutputTokens with _ | v
    · simp [CostEstimator.estimateCost, estimateTokens, hev]
    · by_cases hpos : (0:ℚ) < v <;>
        simp [CostEstimator.estimateCost, estimateTokens, hev, hpos]
  · rcases hev : params.expectedOutputTokens with _ | v
    · simp [CostEstimator.estimateCost, estimateTokens, hev]
    · by_cases hpos : (0:ℚ) < v <;>
        simp [CostEstimator.estimateCost, estimateTokens, hev, hpos]
  · rcases hev : params.expectedOutputTokens with _ | v
    · simp [CostEstimator.estimateCost, estimateTokens, hev]
    · by_cases hpos : (0:ℚ) < v <;>
        simp [CostEstimator.estimateCost, estimateTokens, hev, hpos]
  · intro h
    simp [PriceBook.getModelCosts, h]

/-- C7 witness: the expected-output-token branch, instantiated on the
worked example. -/
theorem claim_C7_cost_estimator_witness :
    (CostEstimator.estimateCost pbC7 paramsC7).outputTokens = 100 :=
  (claim_C7_cost_estimator pbC7 paramsC7).2.1 100 rfl (by decide)


/-- The last `W` elements of a list (all of it when shorter): the shape
`splice(0, length - W)` leaves behind. -/
def lastWindow (W : ℕ) (l : List TelemetryRecord) : List TelemetryRecord :=
  l.drop (l.length - W)

theorem lastWindow_length_le (W : ℕ) (l : List TelemetryRecord) :
    (lastWindow W l).length ≤ W := by
  simp [lastWindow]
  omega

theorem lastWindow_eq_self (W : ℕ) (l : List TelemetryRecord) (h : l.length ≤ W) :
    lastWindow W l = l := by
  simp [lastWindow, Nat.sub_eq_zero_of_le h]

theorem ite_drop_eq_lastWindow (W : ℕ) (arr : List TelemetryRecord) :
    (if arr.length > W then arr.drop (arr.length - W) else arr) = lastWindow W arr := by
  by_cases h : arr.length > W
  · rw [if_pos h]; rfl
  · rw [if_neg h, lastWindow_eq_self _ _ (not_lt.mp h)]

theorem record_store (t : Telemetry) (r : TelemetryRecord) (k : String) :
    (t.record r).store k =
      if k = tkey r.provider r.modelType
      then lastWindow t.windowSize (t.store k ++ [r])
      else t.store k := by
  have base : (t.record r).store k =
      if k = tkey r.provider r.modelType then
        (if (t.store (tkey r.provider r.modelType) ++ [r]).length > t.windowSize
          then (t.store (tkey r.provider r.modelType) ++ [r]).drop
            ((t.store (tkey r.provider r.modelType) ++ [r]).length - t.windowSize)
          else (t.store (tkey r.provider r.modelType) ++ [r]))
      else t.store k := rfl
  rw [base, ite_drop_eq_lastWindow]
  by_cases hk : k = tkey r.provider r.modelType
  · simp [hk]
  · simp [hk]

theorem record_windowSize (t : Telemetry) (r : TelemetryRecord) :
    (t.record r).windowSize = t.windowSize := rfl

theorem lastWindow_append (W : ℕ) (l s : List TelemetryRecord) :
    lastWindow W (lastWindow W l ++ s) = lastWindow W (l ++ s) := by
  unfold lastWindow
  have h1 : List.drop (l.length - W) l ++ s = List.drop (l.length - W) (l ++ s) :=
    (List.drop_append_of_le_length (by omega)).symm
  rw [h1, List.drop_drop]
  congr 1
  simp
  omega

/-- Replay a list of records through `Telemetry.record` in order. -/
def Telemetry.applyAll : List TelemetryRecord → Telemetry → Telemetry
  | [], t => t
  | r :: rs, t => Telemetry.applyAll rs (t.record r)

/-- Records of `recs` addressed to key `k`, in order. -/
def keyFilter (recs : List TelemetryRecord) (k : String) : List TelemetryRecord :=
  recs.filter (fun r => tkey r.provider r.modelType == k)

theorem applyAll_store (recs : List TelemetryRecord) :
    ∀ (t : Telemetry) (k : String), (t.store k).length ≤ t.windowSize →
      (Telemetry.applyAll recs t).store k
        = lastWindow t.windowSize (t.store k ++ keyFilter recs k) := by
  induction recs with
  | nil =>
    intro t k h
    simp [Telemetry.applyAll, keyFilter, lastWindow_eq_self _ _ h]
  | cons r rs ih =>
    intro t k h
    have hW : (t.record r).windowSize = t.windowSize := rfl
    by_cases hk : k = tkey r.provider r.modelType
    · have hs : (t.record r).store k = lastWindow t.windowSize (t.store k ++ [r]) := by
        rw [record_store, if_pos hk]
      have hlen : ((t.record r).store k).length ≤ (t.record r).windowSize := by
        rw [hs, hW]; exact lastWindow_length_le _ _
      have := ih (t.record r) k hlen
      rw [Telemetry.applyAll, this, hW, hs, lastWindow_append]
      have hf : keyFilter (r :: rs) k = r :: keyFilter rs k := by
        simp [keyFilter, hk]
      rw [hf, List.append_assoc]
      rfl
    · have hs : (t.record r).store k = t.store k := by
        rw [record_store, if_neg hk]
      have hlen : ((t.record r).store k).length ≤ (t.record r).windowSize := by
        rw [hs, hW]; exact h
      have := ih (t.record r) k hlen
      rw [Telemetry.applyAll, this, hW, hs]
      have hf : keyFilter (r :: rs) k = keyFilter rs k := by
        unfold keyFilter
        rw [List.filter_cons_of_neg]
        simp [beq_iff_eq]
        exact fun h2 => hk h2.symm
      rw [hf]

theorem claim_C5_telemetry_ring (W : ℕ) (recs : List TelemetryRecord) (k : String) :
    ((Telemetry.applyAll recs (Telemetry.empty W)).store k).length ≤ W
    ∧ (Telemetry.applyAll recs (Telemetry.empty W)).store k
        = lastWindow W (keyFilter recs k) := by
  have h := applyAll_store recs (Telemetry.empty W) k (by simp [Telemetry.empty])
  constructor
  · rw [h]
    exact lastWindow_length_le _ _
  · simpa [Telemetry.empty] using h



/-- A success record for provider "A", model type "T". -/
def mkSuccessRec (l : ℤ) : TelemetryRecord := ⟨"A", "T", l, 0, Outcome.success⟩

/-- The spec's percentile example: latencies 10, 20, …, 100. -/
def tenRecsC6 : List TelemetryRecord :=
  [mkSuccessRec 10, mkSuccessRec 20, mkSuccessRec 30, mkSuccessRec 40, mkSuccessRec 50,
   mkSuccessRec 60, mkSuccessRec 70, mkSuccessRec 80, mkSuccessRec 90, mkSuccessRec 100]

theorem claim_C6_percentiles (t : Telemetry) (prov mt : String) :
    ((t.store (tkey prov mt)).length = 0 →
      (t.getStats prov mt).p50Latency = none ∧ (t.getStats prov mt).p95Latency = none)
    ∧ ((t.store (tkey prov mt)).length ≠ 0 →
        List.Sorted (· ≤ ·)
          (((t.store (tkey prov mt)).map TelemetryRecord.latencyMs).insertionSort (· ≤ ·))
        ∧ (((t.store (tkey prov mt)).map TelemetryRecord.latencyMs).insertionSort (· ≤ ·)).Perm
            ((t.store (tkey prov mt)).map TelemetryRecord.latencyMs)
        ∧ (t.getStats prov mt).p50Latency
            = some ((((t.store (tkey prov mt)).map TelemetryRecord.latencyMs).insertionSort (· ≤ ·)).getD
                (min ((t.store (tkey prov mt)).length - 1)
                  (max 0 ⌊(1/2 : ℚ) * (((t.store (tkey prov mt)).length : ℚ) - 1)⌋).toNat) 0)
        ∧ (t.getStats prov mt).p95Latency
            = some ((((t.store (tkey prov mt)).map TelemetryRecord.latencyMs).insertionSort (· ≤ ·)).getD
                (min ((t.store (tkey prov mt)).length - 1)
                  (max 0 ⌊(19/20 : ℚ) * (((t.store (tkey prov mt)).length : ℚ) - 1)⌋).toNat) 0))
    ∧ (∃ x, ((Telemetry.applyAll tenRecsC6 (Telemetry.empty 200)).getStats "A" "T").p50Latency = some x
        ∧ 40 ≤ x ∧ x ≤ 50)
    ∧ (∃ x, ((Telemetry.applyAll tenRecsC6 (Telemetry.empty 200)).getStats "A" "T").p95Latency = some x
        ∧ 90 ≤ x ∧ x ≤ 100) := by
  have hlen : ∀ l : List TelemetryRecord,
      ((l.map TelemetryRecord.latencyMs).insertionSort (· ≤ ·)).length = l.length := by
    intro l
    rw [List.length_insertionSort, List.length_map]
  refine ⟨?_, ?_, ?_, ?_⟩
  · intro h
    simp [Telemetry.getStats, h]
  · intro h
    refine ⟨List.sorted_insertionSort _ _, List.perm_insertionSort _ _, ?_, ?_⟩
    · simp [Telemetry.getStats, percentileAt, h, hlen]
    · simp [Telemetry.getStats, percentileAt, h, hlen]
  · refine ⟨50, ?_, by norm_num, by norm_num⟩
    norm_num [Telemetry.applyAll, Telemetry.record, Telemetry.empty, Telemetry.getStats,
      tenRecsC6, mkSuccessRec, tkey, percentileAt, List.insertionSort, List.orderedInsert]
    decide
  · refine ⟨90, ?_, by norm_num, by norm_num⟩
    norm_num [Telemetry.applyAll, Telemetry.record, Telemetry.empty, Telemetry.getStats,
      tenRecsC6, mkSuccessRec, tkey, percentileAt, List.insertionSort, List.orderedInsert]
    decide

/-- C6 witness: the empty-window branch at a concrete key. -/
theorem claim_C6_percentiles_witness :
    ((Telemetry.empty 200).getStats "A" "T").p50Latency = none :=
  ((claim_C6_percentiles (Telemetry.empty 200) "A" "T").1 rfl).1

/-- C5 witness: the ring bound instantiated on the percentile example's
records with window size 3. -/
theorem claim_C5_telemetry_ring_witness :
    ((Telemetry.applyAll tenRecsC6 (Telemetry.empty 3)).store (tkey "A" "T")).length ≤ 3 :=
  (claim_C5_telemetry_ring 3 tenRecsC6 (tkey "A" "T")).1



/-- Apply `onFailure` once per listed timestamp, in order. -/
def iterateFailures (cb : CircuitBreaker) (prov mt : String) : List ℤ → CircuitBreaker
  | [] => cb
  | t :: rest => iterateFailures (cb.onFailure prov mt t) prov mt rest

theorem iterateFailures_options (prov mt : String) (ts : List ℤ) :
    ∀ cb : CircuitBreaker, (iterateFailures cb prov mt ts).options = cb.options := by
  induction ts with
  | nil => intro cb; rfl
  | cons t rest ih => intro cb; rw [iterateFailures, ih]; rfl

theorem iterateFailures_append (cb : CircuitBreaker) (prov mt : String)
    (ts : List ℤ) (t0 : ℤ) :
    iterateFailures cb prov mt (ts ++ [t0])
      = (iterateFailures cb prov mt ts).onFailure prov mt t0 := by
  induction ts generalizing cb with
  | nil => rfl
  | cons t rest ih => rw [List.cons_append, iterateFailures, iterateFailures, ih]

theorem onFailure_map_self (cb : CircuitBreaker) (prov mt : String) (now : ℤ) :
    (cb.onFailure prov mt now).map (tkey prov mt)
      = some (if ((cb.map (tkey prov mt)).getD ⟨BState.closed, 0, none⟩).consecutiveFailures + 1
            ≥ cb.options.failureThreshold
          then ⟨BState.opened,
            ((cb.map (tkey prov mt)).getD ⟨BState.closed, 0, none⟩).consecutiveFailures + 1, some now⟩
          else ⟨((cb.map (tkey prov mt)).getD ⟨BState.closed, 0, none⟩).state,
            ((cb.map (tkey prov mt)).getD ⟨BState.closed, 0, none⟩).consecutiveFailures + 1,
            ((cb.map (tkey prov mt)).getD ⟨BState.closed, 0, none⟩).openedAt⟩) := by
  simp [CircuitBreaker.onFailure]

theorem failStreak (prov mt : String) (ts : List ℤ) :
    ∀ (cb : CircuitBreaker) (c : ℕ),
      ((cb.map (tkey prov mt)).getD ⟨BState.closed, 0, none⟩).state = BState.closed →
      ((cb.map (tkey prov mt)).getD ⟨BState.closed, 0, none⟩).consecutiveFailures = c →
      ((cb.map (tkey prov mt)).getD ⟨BState.closed, 0, none⟩).openedAt = none →
      c + ts.length < cb.options.failureThreshold →
      ((iterateFailures cb prov mt ts).map (tkey prov mt)).getD ⟨BState.closed, 0, none⟩
        = ⟨BState.closed, c + ts.length, none⟩ := by
  induction ts with
  | nil =>
    intro cb c h1 h2 h3 _
    rw [iterateFailures]
    cases hmap : cb.map (tkey prov mt) with
    | none => simp [hmap] at h1 h2 h3 ⊢; simp [← h2]
    | some e =>
      simp [hmap] at h1 h2 h3 ⊢
      cases e; simp_all
  | cons t rest ih =>
    intro cb c h1 h2 h3 hlt
    have hlt' : c + rest.length + 1 < cb.options.failureThreshold := by
      simp only [List.length_cons] at hlt; omega
    rw [iterateFailures]
    have hop : (cb.onFailure prov mt t).options = cb.options := rfl
    have hcond : ¬ (((cb.map (tkey prov mt)).getD ⟨BState.closed, 0, none⟩).consecutiveFailures + 1
        ≥ cb.options.failureThreshold) := by
      rw [h2]; omega
    have hentry : ((cb.onFailure prov mt t).map (tkey prov mt)).getD ⟨BState.closed, 0, none⟩
        = ⟨BState.closed, c + 1, none⟩ := by
      rw [onFailure_map_self, if_neg hcond, Option.getD_some, h1, h2, h3]
    have hrec := ih (cb.onFailure prov mt t) (c + 1)
      (by rw [hentry]) (by rw [hentry]) (by rw [hentry])
      (by rw [hop]; omega)
    rw [hrec]
    congr 1
    simp only [List.length_cons]
    omega



/-- C3: on a fresh key, `threshold` consecutive `onFailure` calls (the
last at a positive time `t0`) leave the entry open with
`consecutiveFailures = threshold` and `openedAt = t0`; `isOpen` queried
at `t0` (immediately) returns true; queried at any time at least
`coolOffMs` after `t0` it returns false and, as a side effect, moves
the entry to half-open (counter kept); a subsequent `onSuccess` closes
the entry with counter 0 and `openedAt` cleared. -/
theorem claim_C3_breaker_lifecycle (cb : CircuitBreaker) (prov mt : String)
    (ts : List ℤ) (t0 : ℤ)
    (hfresh : cb.map (tkey prov mt) = none)
    (hth : ts.length + 1 = cb.options.failureThreshold)
    (ht0 : 0 < t0)
    (hcool : 0 < cb.options.coolOffMs) :
    (iterateFailures cb prov mt (ts ++ [t0])).map (tkey prov mt)
      = some ⟨BState.opened, cb.options.failureThreshold, some t0⟩
    ∧ ((iterateFailures cb prov mt (ts ++ [t0])).isOpen prov mt t0).1 = true
    ∧ ∀ now2, cb.options.coolOffMs ≤ now2 - t0 →
        ((iterateFailures cb prov mt (ts ++ [t0])).isOpen prov mt now2).1 = false
        ∧ (((iterateFailures cb prov mt (ts ++ [t0])).isOpen prov mt now2).2.map (tkey prov mt)
            = some ⟨BState.halfOpen, cb.options.failureThreshold, some t0⟩)
        ∧ ((((iterateFailures cb prov mt (ts ++ [t0])).isOpen prov mt now2).2.onSuccess prov mt).map
            (tkey prov mt) = some ⟨BState.closed, 0, none⟩) := by
  have hops : (iterateFailures cb prov mt ts).options = cb.options :=
    iterateFailures_options prov mt ts cb
  have hstreak := failStreak prov mt ts cb 0
    (by rw [hfresh]; rfl) (by rw [hfresh]; rfl) (by rw [hfresh]; rfl)
    (by omega)
  have hopen : (iterateFailures cb prov mt (ts ++ [t0])).map (tkey prov mt)
      = some ⟨BState.opened, cb.options.failureThreshold, some t0⟩ := by
    rw [iterateFailures_append, onFailure_map_self, hstreak]
    rw [if_pos (by simp [hops]; omega)]
    simp
    omega
  refine ⟨hopen, ?_, ?_⟩
  · have hoptsApp : (iterateFailures cb prov mt (ts ++ [t0])).options = cb.options :=
      iterateFailures_options prov mt (ts ++ [t0]) cb
    simp only [CircuitBreaker.isOpen, hopen]
    rw [if_pos trivial, if_neg (by rw [hoptsApp]; omega)]
  · intro now2 hnow2
    have hoptsApp : (iterateFailures cb prov mt (ts ++ [t0])).options = cb.options :=
      iterateFailures_options prov mt (ts ++ [t0]) cb
    have hcondpos : t0 ≠ 0 ∧ now2 - t0 ≥ (iterateFailures cb prov mt (ts ++ [t0])).options.coolOffMs := by
      constructor
      · omega
      · rw [hoptsApp]; omega
    refine ⟨?_, ?_, ?_⟩
    · simp only [CircuitBreaker.isOpen, hopen]
      rw [if_pos trivial, if_pos hcondpos]
    · simp only [CircuitBreaker.isOpen, hopen]
      rw [if_pos trivial, if_pos hcondpos]
      simp
    · simp only [CircuitBreaker.isOpen, hopen]
      rw [if_pos trivial, if_pos hcondpos]
      simp [CircuitBreaker.onSuccess]

/-- C4: a half-open entry whose counter already sits at or above the
failure threshold is re-opened by a single `onFailure`, with `openedAt`
set to the current time. -/
theorem claim_C4_halfopen_reopen (cb : CircuitBreaker) (prov mt : String) (now : ℤ)
    (e : BreakerEntry)
    (hmap : cb.map (tkey prov mt) = some e)
    (hstate : e.state = BState.halfOpen)
    (hcf : cb.options.failureThreshold ≤ e.consecutiveFailures) :
    (cb.onFailure prov mt now).map (tkey prov mt)
      = some ⟨BState.opened, e.consecutiveFailures + 1, some now⟩ := by
  rw [onFailure_map_self, hmap, Option.getD_some, if_pos (by omega)]



/-- A fresh breaker with threshold 2 and cool-off 50ms. -/
def cbC3 : CircuitBreaker := ⟨⟨2, 50⟩, fun _ => none⟩

/-- C3 witness: threshold 2, cool-off 50, failures at t=100 and t=200. -/
theorem claim_C3_breaker_lifecycle_witness :
    ((iterateFailures cbC3 "P" "T" ([100] ++ [200])).isOpen "P" "T" 200).1 = true
    ∧ ((iterateFailures cbC3 "P" "T" ([100] ++ [200])).isOpen "P" "T" 260).1 = false := by
  have h := claim_C3_breaker_lifecycle cbC3 "P" "T" [100] 200 rfl rfl (by decide) (by decide)
  exact ⟨h.2.1, (h.2.2 260 (by decide)).1⟩

/-- A breaker holding one half-open entry at the threshold. -/
def cbC4 : CircuitBreaker :=
  ⟨⟨2, 50⟩, fun k => if k = tkey "P" "T" then some ⟨BState.halfOpen, 2, some 100⟩ else none⟩

/-- C4 witness: the half-open entry of `cbC4` re-opens at t=300. -/
theorem claim_C4_halfopen_reopen_witness :
    (cbC4.onFailure "P" "T" 300).map (tkey "P" "T")
      = some ⟨BState.opened, 3, some 300⟩ :=
  claim_C4_halfopen_reopen cbC4 "P" "T" 300 ⟨BState.halfOpen, 2, some 100⟩
    (by simp [cbC4]) rfl (by decide)



theorem scoreCandidate_some (pb : PriceBook) (telemetry : Telemetry) (modelType : String)
    (R : ResolvedOptions) (p : RegisteredProvider) (rV rE : ℚ) (sp : ScoredProvider)
    (h : scoreCandidate pb telemetry modelType R p rV rE = some sp) :
    sp.provider = p
    ∧ sp.costEstimate = candidateCostEstimate pb R p rV
    ∧ (∀ b, R.sessionBudget = some b → b ≠ 0 →
        ∀ ce, sp.costEstimate = some ce → ce.totalUSD ≤ b - R.sessionSpent) := by
  rcases hce : candidateCostEstimate pb R p rV with _ | ce0
  · simp only [scoreCandidate, hce] at h
    cases h
    exact ⟨rfl, by simp [hce], fun b hb hbne ce hcee => absurd hcee (by simp)⟩
  · simp only [scoreCandidate, hce] at h
    rcases hB : R.sessionBudget with _ | b <;> simp only [hB] at h
    · cases h
      refine ⟨rfl, by simp [hce], ?_⟩
      intro b' hb'
      simp [hB] at hb'
    · by_cases hx : b ≠ 0 ∧ b - R.sessionSpent < ce0.totalUSD
      · rw [decide_eq_true hx] at h
        simp at h
      · rw [decide_eq_false hx] at h
        simp only [Bool.false_eq_true, if_false] at h
        cases h
        refine ⟨rfl, by simp [hce], ?_⟩
        intro b' hb' hbne ce hcee
        cases hb'
        simp only [Option.some.injEq] at hcee
        subst hcee
        push_neg at hx
        exact hx hbne



/-- The claim's exclusion predicate: the entry at key `k` is in the
open state and still within its cool-off at time `now` (an open entry
with no truthy `openedAt` never cools off, so it also counts). -/
def openWithinCoolOff (cb : CircuitBreaker) (k : String) (now : ℤ) : Bool :=
  match cb.map k with
  | some e => e.state == BState.opened &&
      (match e.openedAt with
       | some t => decide (now - t < cb.options.coolOffMs) || decide (t = 0)
       | none => true)
  | none => false

/-- No entry in the open state sits at key `k`. -/
def keySafe (cb : CircuitBreaker) (k : String) : Prop :=
  ∀ e, cb.map k = some e → e.state ≠ BState.opened

theorem keySafe_openWithinCoolOff (cb : CircuitBreaker) (k : String) (now : ℤ)
    (h : keySafe cb k) : openWithinCoolOff cb k now = false := by
  unfold openWithinCoolOff
  cases hmap : cb.map k with
  | none => rfl
  | some e =>
    have := h e hmap
    simp [this]

theorem isOpen_false_keySafe (cb : CircuitBreaker) (prov mt : String) (now : ℤ)
    (h : (cb.isOpen prov mt now).1 = false) :
    keySafe (cb.isOpen prov mt now).2 (tkey prov mt) := by
  intro e' he'
  cases hmap : cb.map (tkey prov mt) with
  | none =>
    simp only [CircuitBreaker.isOpen, hmap] at he'
    exact absurd he' (by simp)
  | some e =>
    simp only [CircuitBreaker.isOpen, hmap] at h he'
    by_cases hst : e.state = BState.opened
    · rw [if_pos hst] at h he'
      cases hoa : e.openedAt with
      | none =>
        simp only [hoa] at h
        simp at h
      | some t =>
        simp only [hoa] at h he'
        by_cases hc : t ≠ 0 ∧ now - t ≥ cb.options.coolOffMs
        · rw [if_pos hc] at he'
          simp at he'
          rw [← he']
          simp
        · rw [if_neg hc] at h
          simp at h
    · rw [if_neg hst] at he'
      simp only [] at he'
      rw [hmap] at he'
      cases he'
      exact hst

theorem isOpen_preserves_keySafe (cb : CircuitBreaker) (prov mt : String) (now : ℤ)
    (k : String) (h : keySafe cb k) : keySafe (cb.isOpen prov mt now).2 k := by
  intro e' he'
  cases hmap : cb.map (tkey prov mt) with
  | none =>
    simp only [CircuitBreaker.isOpen, hmap] at he'
    exact h e' he'
  | some e =>
    simp only [CircuitBreaker.isOpen, hmap] at he'
    by_cases hst : e.state = BState.opened
    · rw [if_pos hst] at he'
      cases hoa : e.openedAt with
      | none =>
        simp only [hoa] at he'
        exact h e' he'
      | some t =>
        simp only [hoa] at he'
        by_cases hc : t ≠ 0 ∧ now - t ≥ cb.options.coolOffMs
        · rw [if_pos hc] at he'
          simp only [] at he'
          by_cases hkk : k = tkey prov mt
          · rw [if_pos hkk] at he'
            cases he'
            simp
          · rw [if_neg hkk] at he'
            exact h e' he'
        · rw [if_neg hc] at he'
          simp only [] at he'
          exact h e' he'
    · rw [if_neg hst] at he'
      simp only [] at he'
      exact h e' he'

theorem selectLoop_preserves_keySafe (pb : PriceBook) (tel : Telemetry) (mt : String)
    (R : ResolvedOptions) (now : ℤ) (rV rE : ℕ → ℚ) (k : String) :
    ∀ (ps : List RegisteredProvider) (i : ℕ) (cb : CircuitBreaker),
      keySafe cb k → keySafe (selectLoop pb tel mt R now rV rE ps i cb).2 k := by
  intro ps
  induction ps with
  | nil => intro i cb h; simpa [selectLoop] using h
  | cons p rest ih =>
    intro i cb h
    simp only [selectLoop]
    have h1 : keySafe (cb.isOpen p.provider mt now).2 k :=
      isOpen_preserves_keySafe _ _ _ _ _ h
    cases hres : (cb.isOpen p.provider mt now).1
    · simp only [hres, Bool.false_eq_true, if_false]
      cases hsc : scoreCandidate pb tel mt R p (rV i) (rE i) with
      | none => exact ih (i + 1) _ h1
      | some sp0 => exact ih (i + 1) _ h1
    · simp only [hres, if_true]
      exact ih (i + 1) _ h1

theorem selectLoop_mem (pb : PriceBook) (tel : Telemetry) (mt : String)
    (R : ResolvedOptions) (now : ℤ) (rV rE : ℕ → ℚ) :
    ∀ (ps : List RegisteredProvider) (i : ℕ) (cb : CircuitBreaker) (sp : ScoredProvider),
      sp ∈ (selectLoop pb tel mt R now rV rE ps i cb).1 →
      (∃ p, p ∈ ps ∧ ∃ j, scoreCandidate pb tel mt R p (rV j) (rE j) = some sp)
      ∧ keySafe (selectLoop pb tel mt R now rV rE ps i cb).2 (tkey sp.provider.provider mt) := by
  intro ps
  induction ps with
  | nil => intro i cb sp hmem; simp [selectLoop] at hmem
  | cons p rest ih =>
    intro i cb sp hmem
    simp only [selectLoop] at hmem ⊢
    cases hres : (cb.isOpen p.provider mt now).1
    · simp only [hres, Bool.false_eq_true, if_false] at hmem ⊢
      cases hsc : scoreCandidate pb tel mt R p (rV i) (rE i) with
      | none =>
        simp only [hsc] at hmem ⊢
        obtain ⟨⟨q, hq, j, hj⟩, hsafe⟩ := ih (i + 1) _ sp hmem
        exact ⟨⟨q, List.mem_cons_of_mem _ hq, j, hj⟩, hsafe⟩
      | some sp0 =>
        simp only [hsc] at hmem ⊢
        rcases List.mem_cons.mp hmem with heq | hmem2
        · subst heq
          have hprov := (scoreCandidate_some pb tel mt R p (rV i) (rE i) sp hsc).1
          refine ⟨⟨p, List.mem_cons_self _ _, i, hsc⟩, ?_⟩
          rw [hprov]
          exact selectLoop_preserves_keySafe pb tel mt R now rV rE _ rest (i + 1) _
            (isOpen_false_keySafe _ _ _ _ hres)
        · obtain ⟨⟨q, hq, j, hj⟩, hsafe⟩ := ih (i + 1) _ sp hmem2
          exact ⟨⟨q, List.mem_cons_of_mem _ hq, j, hj⟩, hsafe⟩
    · simp only [hres, if_true] at hmem ⊢
      obtain ⟨⟨q, hq, j, hj⟩, hsafe⟩ := ih (i + 1) _ sp hmem
      exact ⟨⟨q, List.mem_cons_of_mem _ hq, j, hj⟩, hsafe⟩

theorem mem_insertByScore (x y : ScoredProvider) (l : List ScoredProvider) :
    y ∈ insertByScore x l ↔ y = x ∨ y ∈ l := by
  induction l with
  | nil => simp [insertByScore]
  | cons z zs ih =>
    simp only [insertByScore]
    by_cases h : z.score < x.score
    · simp only [if_pos h, List.mem_cons]
    · simp only [if_neg h, List.mem_cons, ih]
      tauto

theorem mem_sortByScoreDesc (y : ScoredProvider) (l : List ScoredProvider) :
    y ∈ sortByScoreDesc l ↔ y ∈ l := by
  induction l with
  | nil => simp [sortByScoreDesc]
  | cons x xs ih =>
    simp [sortByScoreDesc, mem_insertByScore, ih, List.mem_cons]



/-- C1 (amended): every candidate returned by `select` has, in the
returned breaker state, no open-within-cool-off circuit for its key,
and, when the configured session budget is NONZERO (the source guards
the ceiling with JS truthiness `if (sessionBudget)`), every returned
candidate carrying a cost estimate fits within the remaining budget. -/
theorem claim_C1_rank_filters (tel : Telemetry) (cb : CircuitBreaker) (pb : PriceBook)
    (mt : String) (providers : List RegisteredProvider) (options : PolicyOptions)
    (now : ℤ) (rV rE : ℕ → ℚ) (sp : ScoredProvider)
    (hmem : sp ∈ (RoutingPolicy.select tel cb pb mt providers options now rV rE).1) :
    openWithinCoolOff (RoutingPolicy.select tel cb pb mt providers options now rV rE).2
      (tkey sp.provider.provider mt) now = false
    ∧ (∀ b, options.sessionBudget = some b → b ≠ 0 →
        ∀ ce, sp.costEstimate = some ce →
          ce.totalUSD ≤ b - options.sessionSpent.getD 0) := by
  simp only [RoutingPolicy.select] at hmem ⊢
  rw [mem_sortByScoreDesc] at hmem
  obtain ⟨⟨p, hp, j, hj⟩, hsafe⟩ :=
    selectLoop_mem pb tel mt (resolveOptions options) now rV rE providers 0 cb sp hmem
  have hshape := scoreCandidate_some pb tel mt (resolveOptions options) p (rV j) (rE j) sp hj
  constructor
  · exact keySafe_openWithinCoolOff _ _ _ hsafe
  · intro b hb hbne ce hce
    have hRB : (resolveOptions options).sessionBudget = options.sessionBudget := rfl
    have hRS : (resolveOptions options).sessionSpent = options.sessionSpent.getD 0 := rfl
    have := hshape.2.2 b (by rw [hRB, hb]) hbne ce hce
    rwa [hRS] at this

/-- A cost-free provider for the C1 witness. -/
def provC1w : RegisteredProvider := ⟨"P", some 1, none⟩
/-- A price book with no named entries. -/
def pbTriv : PriceBook := ⟨fun _ => none, ⟨0, 0⟩⟩
/-- A fresh breaker at the default options. -/
def cbEmptyC1 : CircuitBreaker := ⟨⟨3, 60000⟩, fun _ => none⟩
/-- The scored candidate `select` returns for `provC1w`. -/
def spC1w : ScoredProvider := ⟨provC1w, 1, ⟨none, none, 0⟩, none⟩

/-- C1 witness: a single cost-free provider on a fresh breaker is
returned and its circuit is not open-within-cool-off. -/
theorem claim_C1_rank_filters_witness :
    openWithinCoolOff (RoutingPolicy.select (Telemetry.empty 200) cbEmptyC1 pbTriv "T"
      [provC1w] {} 0 (fun _ => 0) (fun _ => 0)).2 (tkey spC1w.provider.provider "T") 0 = false :=
  (claim_C1_rank_filters (Telemetry.empty 200) cbEmptyC1 pbTriv "T" [provC1w] {} 0
    (fun _ => 0) (fun _ => 0) spC1w
    (by simp [RoutingPolicy.select, resolveOptions, selectLoop, scoreCandidate,
      candidateCostEstimate, sortByScoreDesc, insertByScore, CircuitBreaker.isOpen,
      Telemetry.empty, Telemetry.getStats, cbEmptyC1, provC1w, spC1w, tkey])).1

/-- Price book for the C1 counterexample. -/
def pbC1 : PriceBook := ⟨fun n => if n = "m" then some ⟨15/100000, 6/10000⟩ else none, ⟨1, 1⟩⟩
/-- A provider with a cost block for the C1 counterexample. -/
def provC1 : RegisteredProvider := ⟨"P", some 5, some ⟨none, none, some ⟨"m", some 4, none, none⟩⟩⟩
/-- Options with a configured budget of 0 for the C1 counterexample. -/
def optsC1 : PolicyOptions :=
  { promptLength := some 400, expectedOutputTokens := some 100,
    sessionBudget := some 0, sessionSpent := some 0 }

/-- C1 counterexample to the claim as stated: with a configured session
budget of 0 (bounded ledger) and nothing spent, a candidate whose
estimate costs $3/40000 is still returned with its cost estimate,
violating `totalUSD ≤ budget − spent`; the truthiness guard skips the
ceiling entirely at budget 0. -/
theorem claim_C1_rank_filters_counterexample :
    optsC1.sessionBudget = some 0
    ∧ ((RoutingPolicy.select (Telemetry.empty 200) cbEmptyC1 pbC1 "T" [provC1] optsC1 0
        (fun _ => 1/2) (fun _ => 0)).1.map (fun sp => sp.costEstimate.map (fun c => c.totalUSD)))
        = [some (3/40000)]
    ∧ ¬ ((3/40000 : ℚ) ≤ 0 - optsC1.sessionSpent.getD 0) := by
  refine ⟨rfl, ?_, by norm_num [optsC1]⟩
  norm_num [RoutingPolicy.select, resolveOptions, selectLoop, scoreCandidate,
    candidateCostEstimate, sortByScoreDesc, insertByScore, CircuitBreaker.isOpen,
    Telemetry.empty, Telemetry.getStats, CostEstimator.estimateCostWithVariance,
    CostEstimator.estimateCost, estimateTokens, PriceBook.getModelCosts,
    pbC1, provC1, optsC1, cbEmptyC1, tkey]
  exact ⟨_, ⟨by decide, rfl⟩, by norm_num⟩



theorem scoreCandidate_eps_zero (pb : PriceBook) (tel : Telemetry) (mt : String)
    (R : ResolvedOptions) (p : RegisteredProvider) (rV rE1 rE2 : ℚ)
    (h : R.explorationEpsilon = 0) :
    scoreCandidate pb tel mt R p rV rE1 = scoreCandidate pb tel mt R p rV rE2 := by
  simp only [scoreCandidate, h, mul_zero, add_zero]

theorem selectLoop_eps_zero (pb : PriceBook) (tel : Telemetry) (mt : String)
    (R : ResolvedOptions) (now : ℤ) (rV rE1 rE2 : ℕ → ℚ)
    (h : R.explorationEpsilon = 0) :
    ∀ (ps : List RegisteredProvider) (i : ℕ) (cb : CircuitBreaker),
      selectLoop pb tel mt R now rV rE1 ps i cb = selectLoop pb tel mt R now rV rE2 ps i cb := by
  intro ps
  induction ps with
  | nil => intro i cb; rfl
  | cons p rest ih =>
    intro i cb
    simp only [selectLoop]
    rw [scoreCandidate_eps_zero pb tel mt R p (rV i) (rE1 i) (rE2 i) h]
    rw [ih (i + 1) ((cb.isOpen p.provider mt now)).2]

/-- C10: with `explorationEpsilon = 0` and the cost-variance draw
disabled (the canonical `Math.random() = 0.5` draw, variance factor 1),
`select` does not depend on the exploration random stream: two runs
over any two streams return identical scored orderings and identical
breaker states. -/
theorem claim_C10_rank_deterministic (tel : Telemetry) (cb : CircuitBreaker)
    (pb : PriceBook) (mt : String) (providers : List RegisteredProvider)
    (options : PolicyOptions) (now : ℤ) (rE1 rE2 : ℕ → ℚ)
    (heps : options.explorationEpsilon = some 0) :
    RoutingPolicy.select tel cb pb mt providers options now (fun _ => 1/2) rE1
      = RoutingPolicy.select tel cb pb mt providers options now (fun _ => 1/2) rE2 := by
  have hR : (resolveOptions options).explorationEpsilon = 0 := by
    simp [resolveOptions, heps]
  simp only [RoutingPolicy.select]
  rw [selectLoop_eps_zero pb tel mt (resolveOptions options) now _ rE1 rE2 hR]

/-- C10 witness: two distinct exploration streams on a concrete
configuration give the same result. -/
theorem claim_C10_rank_deterministic_witness :
    RoutingPolicy.select (Telemetry.empty 200) cbEmptyC1 pbTriv "T" [provC1w]
        { explorationEpsilon := some 0 } 0 (fun _ => 1/2) (fun _ => 0)
      = RoutingPolicy.select (Telemetry.empty 200) cbEmptyC1 pbTriv "T" [provC1w]
        { explorationEpsilon := some 0 } 0 (fun _ => 1/2) (fun _ => 7) :=
  claim_C10_rank_deterministic (Telemetry.empty 200) cbEmptyC1 pbTriv "T" [provC1w]
    { explorationEpsilon := some 0 } 0 (fun _ => 0) (fun _ => 7) rfl

/-- Router state for the C9 failing input. -/
def stC9 : RouterState := ⟨Telemetry.empty 200, cbEmptyC1, 300000, 2, none, 0⟩

/-- C9: the promptLength actually handed to ranking.  The router
derives it solely from `params.prompt` and then OVERWRITES any
caller-supplied `options.promptLength` (the derived field is spread
after the options); `params.text` is never consulted.  At the failing
input (params carrying only `text = "hello"`, caller option
`promptLength = 42`) the policy receives promptLength 0, where the
claim expects the override 42 (or the text length 5). -/
theorem claim_C9_promptLength_derivation :
    (∀ (st : RouterState) (params : Params) (policyOptions : PolicyOptions),
      (Router.effectiveOptions st params policyOptions).promptLength
        = some (derivedPromptLength params))
    ∧ derivedPromptLength ⟨none, some "hello", false⟩ = 0
    ∧ (Router.effectiveOptions stC9 ⟨none, some "hello", false⟩
        { promptLength := some 42 }).promptLength = some 0 := by
  refine ⟨fun st params policyOptions => rfl, rfl, rfl⟩


theorem getModelCosts_nonneg (pb : PriceBook) (n : String)
    (hpbE : ∀ m mc, pb.entries m = some mc → 0 ≤ mc.input ∧ 0 ≤ mc.output)
    (hdf : 0 ≤ pb.dflt.input ∧ 0 ≤ pb.dflt.output) :
    0 ≤ (pb.getModelCosts n).input ∧ 0 ≤ (pb.getModelCosts n).output := by
  unfold PriceBook.getModelCosts
  cases he : pb.entries n with
  | none => simpa using hdf
  | some mc => simpa using hpbE _ mc he

theorem estimateCost_totalUSD_nonneg (pb : PriceBook) (params : CostEstimateParams)
    (hpbE : ∀ m mc, pb.entries m = some mc → 0 ≤ mc.input ∧ 0 ≤ mc.output)
    (hdf : 0 ≤ pb.dflt.input ∧ 0 ≤ pb.dflt.output)
    (hchars : 0 ≤ params.promptChars)
    (hcpt : 0 < params.charsPerToken.getD 4)
    (hfee : 0 ≤ params.requestFixedFeeUSD.getD 0)
    (hdisc : 0 ≤ params.discountFactor.getD 1) :
    0 ≤ (CostEstimator.estimateCost pb params).totalUSD := by
  have hrate := getModelCosts_nonneg pb params.simulatedModelName hpbE hdf
  have hit : (0:ℚ) ≤ ((estimateTokens params.promptChars (params.charsPerToken.getD 4) : ℤ) : ℚ) := by
    have : (0:ℤ) ≤ estimateTokens params.promptChars (params.charsPerToken.getD 4) :=
      Int.ceil_nonneg (div_nonneg hchars (le_of_lt hcpt))
    exact_mod_cast this
  have hfallback : (0:ℚ) ≤ ((max 1 ⌈((estimateTokens params.promptChars
      (params.charsPerToken.getD 4) : ℤ) : ℚ) * (2/10)⌉ : ℤ) : ℚ) := by
    have h1 : (1:ℤ) ≤ max 1 ⌈((estimateTokens params.promptChars
        (params.charsPerToken.getD 4) : ℤ) : ℚ) * (2/10)⌉ := le_max_left _ _
    have : (0:ℤ) ≤ max 1 ⌈((estimateTokens params.promptChars
        (params.charsPerToken.getD 4) : ℤ) : ℚ) * (2/10)⌉ := by omega
    exact_mod_cast this
  rcases hev : params.expectedOutputTokens with _ | v
  · simp only [CostEstimator.estimateCost, hev]
    apply mul_nonneg _ hdisc
    apply add_nonneg (add_nonneg _ _) hfee
    · exact mul_nonneg (div_nonneg hit (by norm_num)) hrate.1
    · exact mul_nonneg (div_nonneg hfallback (by norm_num)) hrate.2
  · by_cases hpos : (0:ℚ) < v
    · simp only [CostEstimator.estimateCost, hev, if_pos hpos]
      apply mul_nonneg _ hdisc
      apply add_nonneg (add_nonneg _ _) hfee
      · exact mul_nonneg (div_nonneg hit (by norm_num)) hrate.1
      · exact mul_nonneg (div_nonneg (le_of_lt hpos) (by norm_num)) hrate.2
    · simp only [CostEstimator.estimateCost, hev, if_neg hpos]
      apply mul_nonneg _ hdisc
      apply add_nonneg (add_nonneg _ _) hfee
      · exact mul_nonneg (div_nonneg hit (by norm_num)) hrate.1
      · exact mul_nonneg (div_nonneg hfallback (by norm_num)) hrate.2

theorem estimateCostWithVariance_totalUSD_nonneg (pb : PriceBook)
    (params : CostEstimateParams) (rand : ℚ)
    (hpbE : ∀ m mc, pb.entries m = some mc → 0 ≤ mc.input ∧ 0 ≤ mc.output)
    (hdf : 0 ≤ pb.dflt.input ∧ 0 ≤ pb.dflt.output)
    (hchars : 0 ≤ params.promptChars)
    (hcpt : 0 < params.charsPerToken.getD 4)
    (hfee : 0 ≤ params.requestFixedFeeUSD.getD 0)
    (hdisc : 0 ≤ params.discountFactor.getD 1)
    (hr0 : 0 ≤ rand) (hr1 : rand ≤ 1) :
    0 ≤ (CostEstimator.estimateCostWithVariance pb params rand).totalUSD := by
  have hbase := estimateCost_totalUSD_nonneg pb params hpbE hdf hchars hcpt hfee hdisc
  have hfac : (0:ℚ) ≤ 1 + (rand - 1/2) * (1/10) := by linarith
  simp only [CostEstimator.estimateCostWithVariance]
  exact mul_nonneg hbase hfac

theorem candidateCostEstimate_nonneg (pb : PriceBook) (R : ResolvedOptions)
    (p : RegisteredProvider) (rV : ℚ)
    (hpbE : ∀ m mc, pb.entries m = some mc → 0 ≤ mc.input ∧ 0 ≤ mc.output)
    (hdf : 0 ≤ pb.dflt.input ∧ 0 ≤ pb.dflt.output)
    (hpl : 0 ≤ R.promptLength)
    (hr0 : 0 ≤ rV) (hr1 : rV ≤ 1)
    (hcaps : ∀ caps, p.capabilities = some caps → ∀ cc, caps.cost = some cc →
      0 < cc.tokenCharsPerToken.getD 4 ∧ 0 ≤ cc.requestFixedFeeUSD.getD 0
        ∧ 0 ≤ cc.discountFactor.getD 1) :
    ∀ ce, candidateCostEstimate pb R p rV = some ce → 0 ≤ ce.totalUSD := by
  intro ce hce
  cases hpc : p.capabilities with
  | none => simp [candidateCostEstimate, hpc] at hce
  | some caps =>
    cases hcost : caps.cost with
    | none => simp [candidateCostEstimate, hpc, hcost] at hce
    | some cc =>
      simp only [candidateCostEstimate, hpc, Option.getD_some, hcost] at hce
      by_cases hguard : cc.simulatedModelName ≠ "" ∧ 0 < R.promptLength
      · rw [if_pos hguard] at hce
        cases hce
        obtain ⟨hcpt, hfee, hdisc⟩ := hcaps caps hpc cc hcost
        exact estimateCostWithVariance_totalUSD_nonneg pb _ rV hpbE hdf hpl hcpt hfee hdisc hr0 hr1
      · rw [if_neg hguard] at hce
        exact absurd hce (by simp)



theorem runAttempts_ok (mt : String) (oracle : ℕ → AttemptOutcome) (maxR : ℕ) :
    ∀ (scored : List ScoredProvider) (s : LoopState) (prov : String)
      (ceOpt : Option CostEstimate) (ls : LoopState),
      runAttempts mt oracle maxR scored s = (some (prov, ceOpt), ls) →
      ls.spent = s.spent + (ceOpt.map CostEstimate.totalUSD).getD 0
      ∧ ∃ sp, sp ∈ scored ∧ sp.provider.provider = prov ∧ sp.costEstimate = ceOpt := by
  intro scored
  induction scored with
  | nil =>
    intro s prov ceOpt ls h
    simp [runAttempts] at h
  | cons sp rest ih =>
    intro s prov ceOpt ls h
    simp only [runAttempts] at h
    by_cases hatt : s.attempts > maxR
    · rw [if_pos hatt] at h
      simp at h
    · rw [if_neg hatt] at h
      cases horc : oracle s.attempts with
      | ok lat ts =>
        simp only [horc, Prod.mk.injEq, Option.some.injEq] at h
        obtain ⟨⟨hprov, hce⟩, hls⟩ := h
        subst hprov
        subst hce
        subst hls
        constructor
        · rcases hco : sp.costEstimate with _ | ce <;> simp [hco]
        · exact ⟨sp, List.mem_cons_self _ _, rfl, rfl⟩
      | err isT lat ts =>
        simp only [horc] at h
        obtain ⟨hspent, sp2, hmem, hp2, hc2⟩ := ih _ prov ceOpt ls h
        refine ⟨by simpa using hspent, sp2, List.mem_cons_of_mem _ hmem, hp2, hc2⟩

theorem runAttempts_none (mt : String) (oracle : ℕ → AttemptOutcome) (maxR : ℕ) :
    ∀ (scored : List ScoredProvider) (s : LoopState) (ls : LoopState),
      runAttempts mt oracle maxR scored s = (none, ls) →
      ls.spent = s.spent := by
  intro scored
  induction scored with
  | nil =>
    intro s ls h
    simp only [runAttempts] at h
    injection h with h1 h2
    subst h2
    rfl
  | cons sp rest ih =>
    intro s ls h
    simp only [runAttempts] at h
    by_cases hatt : s.attempts > maxR
    · rw [if_pos hatt] at h
      injection h with h1 h2
      subst h2
      rfl
    · rw [if_neg hatt] at h
      cases horc : oracle s.attempts with
      | ok lat ts =>
        simp only [horc] at h
        simp at h
      | err isT lat ts =>
        simp only [horc] at h
        simpa using ih _ ls h



theorem hintCandidates_subset (providers : List RegisteredProvider) (hint : Option String) :
    ∀ p ∈ Router.hintCandidates providers hint, p ∈ providers := by
  intro p hp
  rcases hint with _ | h
  · simpa [Router.hintCandidates] using hp
  · simp only [Router.hintCandidates] at hp
    by_cases hh : h ≠ ""
    · rw [if_pos hh] at hp
      exact (List.mem_filter.mp hp).1
    · rw [if_neg hh] at hp
      exact hp

theorem select_mem_costEstimate (tel : Telemetry) (cb : CircuitBreaker) (pb : PriceBook)
    (mt : String) (providers : List RegisteredProvider) (options : PolicyOptions)
    (now : ℤ) (rV rE : ℕ → ℚ) (sp : ScoredProvider)
    (hmem : sp ∈ (RoutingPolicy.select tel cb pb mt providers options now rV rE).1) :
    ∃ p, p ∈ providers ∧ ∃ j,
      sp.costEstimate = candidateCostEstimate pb (resolveOptions options) p (rV j) := by
  simp only [RoutingPolicy.select] at hmem
  rw [mem_sortByScoreDesc] at hmem
  obtain ⟨⟨p, hp, j, hj⟩, -⟩ :=
    selectLoop_mem pb tel mt (resolveOptions options) now rV rE providers 0 cb sp hmem
  exact ⟨p, hp, j, (scoreCandidate_some pb tel mt (resolveOptions options) p (rV j) (rE j) sp hj).2.1⟩

theorem useModelWithInfo_spent_cases (pb : PriceBook) (st : RouterState)
    (providers : List RegisteredProvider) (mt : String) (params : Params)
    (policyOptions : PolicyOptions) (providerHint : Option String) (now : ℤ)
    (randV randE : ℕ → ℚ) (oracle : ℕ → AttemptOutcome)
    (hpbE : ∀ m mc, pb.entries m = some mc → 0 ≤ mc.input ∧ 0 ≤ mc.output)
    (hdf : 0 ≤ pb.dflt.input ∧ 0 ≤ pb.dflt.output)
    (hcaps : ∀ p, p ∈ providers → ∀ caps, p.capabilities = some caps →
      ∀ cc, caps.cost = some cc →
        0 < cc.tokenCharsPerToken.getD 4 ∧ 0 ≤ cc.requestFixedFeeUSD.getD 0
          ∧ 0 ≤ cc.discountFactor.getD 1)
    (hrV : ∀ i, 0 ≤ randV i ∧ randV i ≤ 1) :
    (∃ prov ceOpt,
        (Router.useModelWithInfo pb st providers mt params policyOptions providerHint
          now randV randE oracle).1 = Except.ok (prov, ceOpt)
        ∧ (Router.useModelWithInfo pb st providers mt params policyOptions providerHint
            now randV randE oracle).2.sessionSpent
            = st.sessionSpent + (ceOpt.map CostEstimate.totalUSD).getD 0
        ∧ 0 ≤ (ceOpt.map CostEstimate.totalUSD).getD 0)
    ∨ ((∃ err,
        (Router.useModelWithInfo pb st providers mt params policyOptions providerHint
          now randV randE oracle).1 = Except.error err)
        ∧ (Router.useModelWithInfo pb st providers mt params policyOptions providerHint
            now randV randE oracle).2.sessionSpent = st.sessionSpent) := by
  simp only [Router.useModelWithInfo]
  by_cases hempty : (Router.hintCandidates providers providerHint).isEmpty = true
  · rw [if_pos hempty]
    exact Or.inr ⟨⟨RouterError.noProviders, rfl⟩, rfl⟩
  · rw [if_neg hempty]
    by_cases hsc : (RoutingPolicy.select st.telemetry st.circuit pb mt
        (Router.hintCandidates providers providerHint)
        (Router.effectiveOptions st params policyOptions) now randV randE).1.isEmpty = true
    · rw [if_pos hsc]
      exact Or.inr ⟨⟨RouterError.allUnavailable, rfl⟩, rfl⟩
    · rw [if_neg hsc]
      rcases hrun : runAttempts mt oracle st.maxRetries
          (RoutingPolicy.select st.telemetry st.circuit pb mt
            (Router.hintCandidates providers providerHint)
            (Router.effectiveOptions st params policyOptions) now randV randE).1
          ⟨st.telemetry,
            (RoutingPolicy.select st.telemetry st.circuit pb mt
              (Router.hintCandidates providers providerHint)
              (Router.effectiveOptions st params policyOptions) now randV randE).2,
            st.sessionSpent, 0⟩ with ⟨ores, ls⟩
      cases ores with
      | none =>
        simp only [hrun]
        exact Or.inr ⟨⟨_, rfl⟩, runAttempts_none mt oracle st.maxRetries _ _ ls hrun⟩
      | some r =>
        rcases r with ⟨prov0, ceOpt0⟩
        simp only [hrun]
        obtain ⟨hspent, sp, hspmem, hspprov, hspce⟩ :=
          runAttempts_ok mt oracle st.maxRetries _ _ prov0 ceOpt0 ls hrun
        refine Or.inl ⟨prov0, ceOpt0, rfl, hspent, ?_⟩
        obtain ⟨p, hpmem, j, hceq⟩ := select_mem_costEstimate st.telemetry st.circuit pb mt
          (Router.hintCandidates providers providerHint)
          (Router.effectiveOptions st params policyOptions) now randV randE sp hspmem
        have hpl : 0 ≤ (resolveOptions
            (Router.effectiveOptions st params policyOptions)).promptLength := by
          have hd : (resolveOptions
              (Router.effectiveOptions st params policyOptions)).promptLength
              = derivedPromptLength params := rfl
          rw [hd]
          unfold derivedPromptLength
          cases params.prompt with
          | none => norm_num
          | some s => positivity
        rcases hco : ceOpt0 with _ | ce
        · simp
        · rw [← hspce, hceq] at hco
          have hnn := candidateCostEstimate_nonneg pb
            (resolveOptions (Router.effectiveOptions st params policyOptions)) p (randV j)
            hpbE hdf hpl (hrV j).1 (hrV j).2
            (fun caps hc cc hcc =>
              hcaps p (hintCandidates_subset providers providerHint p hpmem) caps hc cc hcc)
            ce hco
          simpa using hnn



/-- C2: session spend never decreases across a dispatch; a successful
dispatch charges exactly the returned candidate's `costEstimate.totalUSD`
(0 when it carried none); a dispatch ending in any error leaves the
ledger unchanged.  Price-book rates, fixed fees and discounts are
assumed nonnegative, token ratios positive, and the variance draws lie
in [0, 1] (they are `Math.random()` values). -/
theorem claim_C2_dispatch_ledger (pb : PriceBook) (st : RouterState)
    (providers : List RegisteredProvider) (mt : String) (params : Params)
    (policyOptions : PolicyOptions) (providerHint : Option String) (now : ℤ)
    (randV randE : ℕ → ℚ) (oracle : ℕ → AttemptOutcome)
    (hpbE : ∀ m mc, pb.entries m = some mc → 0 ≤ mc.input ∧ 0 ≤ mc.output)
    (hdf : 0 ≤ pb.dflt.input ∧ 0 ≤ pb.dflt.output)
    (hcaps : ∀ p, p ∈ providers → ∀ caps, p.capabilities = some caps →
      ∀ cc, caps.cost = some cc →
        0 < cc.tokenCharsPerToken.getD 4 ∧ 0 ≤ cc.requestFixedFeeUSD.getD 0
          ∧ 0 ≤ cc.discountFactor.getD 1)
    (hrV : ∀ i, 0 ≤ randV i ∧ randV i ≤ 1) :
    st.sessionSpent ≤ (Router.useModelWithInfo pb st providers mt params policyOptions
        providerHint now randV randE oracle).2.sessionSpent
    ∧ (∀ prov ceOpt,
        (Router.useModelWithInfo pb st providers mt params policyOptions providerHint
          now randV randE oracle).1 = Except.ok (prov, ceOpt) →
        (Router.useModelWithInfo pb st providers mt params policyOptions providerHint
          now randV randE oracle).2.sessionSpent
          = st.sessionSpent + (ceOpt.map CostEstimate.totalUSD).getD 0)
    ∧ (∀ err,
        (Router.useModelWithInfo pb st providers mt params policyOptions providerHint
          now randV randE oracle).1 = Except.error err →
        (Router.useModelWithInfo pb st providers mt params policyOptions providerHint
          now randV randE oracle).2.sessionSpent = st.sessionSpent) := by
  have H := useModelWithInfo_spent_cases pb st providers mt params policyOptions providerHint
    now randV randE oracle hpbE hdf hcaps hrV
  rcases H with ⟨prov, ceOpt, hok, hsp, hnn⟩ | ⟨⟨err, herr⟩, hsp⟩
  · refine ⟨by rw [hsp]; linarith, ?_, ?_⟩
    · intro prov' ceOpt' hok'
      rw [hok] at hok'
      injection hok' with hpair
      injection hpair with h1 h2
      subst h2
      exact hsp
    · intro err' herr'
      rw [hok] at herr'
      simp at herr'
  · refine ⟨by rw [hsp], ?_, ?_⟩
    · intro prov' ceOpt' hok'
      rw [herr] at hok'
      simp at hok'
    · intro err' herr'
      exact hsp

/-- Router state for the C2 witness: no budget, nothing spent. -/
def stC2w : RouterState := ⟨Telemetry.empty 200, cbEmptyC1, 300000, 2, none, 0⟩

/-- C2 witness: a successful dispatch over a cost-free provider leaves
the ledger at spent + 0, and monotonicity holds. -/
theorem claim_C2_dispatch_ledger_witness :
    stC2w.sessionSpent ≤ (Router.useModelWithInfo pbTriv stC2w [provC1w] "T"
      ⟨some "hi", none, false⟩ {} none 0 (fun _ => 1/2) (fun _ => 0)
      (fun _ => AttemptOutcome.ok 10 100)).2.sessionSpent :=
  (claim_C2_dispatch_ledger pbTriv stC2w [provC1w] "T" ⟨some "hi", none, false⟩ {} none 0
    (fun _ => 1/2) (fun _ => 0) (fun _ => AttemptOutcome.ok 10 100)
    (fun m mc h => nomatch h) (by norm_num [pbTriv])
    (by
      intro p hp caps hc cc hcc
      simp only [List.mem_singleton] at hp
      subst hp
      simp [provC1w] at hc)
    (fun i => ⟨by norm_num, by norm_num⟩)).1



/-- `cb'` differs from `cb` at most by open→half-open cool-off
promotions (the only mutation `isOpen` performs). -/
def promotionOnly (cb cb' : CircuitBreaker) : Prop :=
  cb'.options = cb.options ∧
  ∀ k, cb'.map k = cb.map k ∨
    ∃ e, cb.map k = some e ∧ e.state = BState.opened
      ∧ cb'.map k = some ⟨BState.halfOpen, e.consecutiveFailures, e.openedAt⟩

theorem promotionOnly_refl (cb : CircuitBreaker) : promotionOnly cb cb :=
  ⟨rfl, fun _ => Or.inl rfl⟩

theorem promotionOnly_trans (cb0 cb1 cb2 : CircuitBreaker)
    (h01 : promotionOnly cb0 cb1) (h12 : promotionOnly cb1 cb2) :
    promotionOnly cb0 cb2 := by
  refine ⟨h12.1.trans h01.1, fun k => ?_⟩
  rcases h12.2 k with h2 | ⟨e1, he1, hst1, hm1⟩
  · rcases h01.2 k with h1 | ⟨e0, he0, hst0, hm0⟩
    · exact Or.inl (h2.trans h1)
    · exact Or.inr ⟨e0, he0, hst0, h2.trans hm0⟩
  · rcases h01.2 k with h1 | ⟨e0, he0, hst0, hm0⟩
    · exact Or.inr ⟨e1, h1 ▸ he1, hst1, hm1⟩
    · rw [hm0] at he1
      injection he1 with he1'
      rw [← he1'] at hst1
      simp at hst1

theorem isOpen_promotionOnly (cb : CircuitBreaker) (prov mt : String) (now : ℤ) :
    promotionOnly cb (cb.isOpen prov mt now).2 := by
  cases hmap : cb.map (tkey prov mt) with
  | none =>
    simp only [CircuitBreaker.isOpen, hmap]
    exact promotionOnly_refl cb
  | some e =>
    simp only [CircuitBreaker.isOpen, hmap]
    by_cases hst : e.state = BState.opened
    · rw [if_pos hst]
      cases hoa : e.openedAt with
      | none => exact promotionOnly_refl cb
      | some t =>
        dsimp only
        by_cases hc : t ≠ 0 ∧ now - t ≥ cb.options.coolOffMs
        · rw [if_pos hc]
          refine ⟨rfl, fun k => ?_⟩
          by_cases hk : k = tkey prov mt
          · subst hk
            exact Or.inr ⟨e, hmap, hst, by simp [hoa]⟩
          · simp only []
            left
            rw [if_neg hk]
        · rw [if_neg hc]
          exact promotionOnly_refl cb
    · rw [if_neg hst]
      exact promotionOnly_refl cb

theorem selectLoop_promotionOnly (pb : PriceBook) (tel : Telemetry) (mt : String)
    (R : ResolvedOptions) (now : ℤ) (rV rE : ℕ → ℚ) :
    ∀ (ps : List RegisteredProvider) (i : ℕ) (cb : CircuitBreaker),
      promotionOnly cb (selectLoop pb tel mt R now rV rE ps i cb).2 := by
  intro ps
  induction ps with
  | nil => intro i cb; exact promotionOnly_refl cb
  | cons p rest ih =>
    intro i cb
    simp only [selectLoop]
    have h1 := isOpen_promotionOnly cb p.provider mt now
    cases hres : (cb.isOpen p.provider mt now).1
    · simp only [hres, Bool.false_eq_true, if_false]
      cases hsc : scoreCandidate pb tel mt R p (rV i) (rE i) with
      | none => exact promotionOnly_trans _ _ _ h1 (ih (i + 1) _)
      | some sp0 => exact promotionOnly_trans _ _ _ h1 (ih (i + 1) _)
    · simp only [hres, if_true]
      exact promotionOnly_trans _ _ _ h1 (ih (i + 1) _)



/-- C8 (amended): when ranking returns an empty list on a nonempty
candidate set, dispatch fails with `AllUnavailable`, no handler runs
(the result is independent of the outcome oracle), no telemetry record
is appended, the ledger is unchanged, and the breaker undergoes no
`onSuccess`/`onFailure` transition — the only possible change is the
open→half-open cool-off promotion performed by the rank query itself. -/
theorem claim_C8_all_unavailable (pb : PriceBook) (st : RouterState)
    (providers : List RegisteredProvider) (mt : String) (params : Params)
    (policyOptions : PolicyOptions) (providerHint : Option String) (now : ℤ)
    (randV randE : ℕ → ℚ) (oracle : ℕ → AttemptOutcome)
    (hcand : (Router.hintCandidates providers providerHint).isEmpty = false)
    (hrank : (RoutingPolicy.select st.telemetry st.circuit pb mt
        (Router.hintCandidates providers providerHint)
        (Router.effectiveOptions st params policyOptions) now randV randE).1 = []) :
    (Router.useModelWithInfo pb st providers mt params policyOptions providerHint
        now randV randE oracle).1 = Except.error RouterError.allUnavailable
    ∧ (Router.useModelWithInfo pb st providers mt params policyOptions providerHint
        now randV randE oracle).2.telemetry = st.telemetry
    ∧ (Router.useModelWithInfo pb st providers mt params policyOptions providerHint
        now randV randE oracle).2.sessionSpent = st.sessionSpent
    ∧ promotionOnly st.circuit
        (Router.useModelWithInfo pb st providers mt params policyOptions providerHint
          now randV randE oracle).2.circuit
    ∧ (∀ oracle2,
        Router.useModelWithInfo pb st providers mt params policyOptions providerHint
          now randV randE oracle
        = Router.useModelWithInfo pb st providers mt params policyOptions providerHint
            now randV randE oracle2) := by
  have hne : ¬ ((Router.hintCandidates providers providerHint).isEmpty = true) := by
    rw [hcand]; simp
  have hscEmpty : (RoutingPolicy.select st.telemetry st.circuit pb mt
      (Router.hintCandidates providers providerHint)
      (Router.effectiveOptions st params policyOptions) now randV randE).1.isEmpty = true := by
    rw [hrank]; rfl
  have hres : ∀ o : ℕ → AttemptOutcome,
      Router.useModelWithInfo pb st providers mt params policyOptions providerHint
        now randV randE o
      = (Except.error RouterError.allUnavailable,
         { st with circuit := (RoutingPolicy.select st.telemetry st.circuit pb mt
            (Router.hintCandidates providers providerHint)
            (Router.effectiveOptions st params policyOptions) now randV randE).2 }) := by
    intro o
    simp only [Router.useModelWithInfo]
    rw [if_neg hne, if_pos hscEmpty]
  refine ⟨by rw [hres oracle], by rw [hres oracle], by rw [hres oracle], ?_, ?_⟩
  · rw [hres oracle]
    have := selectLoop_promotionOnly pb st.telemetry mt
      (resolveOptions (Router.effectiveOptions st params policyOptions)) now randV randE
      (Router.hintCandidates providers providerHint) 0 st.circuit
    simpa [RoutingPolicy.select] using this
  · intro oracle2
    rw [hres oracle, hres oracle2]

/-- Breaker for the C8 witness: the provider's circuit is open and the
cool-off has not elapsed at the query time. -/
def cbC8w : CircuitBreaker :=
  ⟨⟨3, 50⟩, fun k => if k = tkey "P" "T" then some ⟨BState.opened, 3, some 100⟩ else none⟩

/-- Router state for the C8 witness. -/
def stC8w : RouterState := ⟨Telemetry.empty 200, cbC8w, 300000, 2, none, 0⟩

/-- C8 witness: the single provider is circuit-open within cool-off at
now = 120, so ranking is empty and dispatch fails with AllUnavailable
with the ledger untouched. -/
theorem claim_C8_all_unavailable_witness :
    (Router.useModelWithInfo pbTriv stC8w [provC1w] "T" ⟨some "hi", none, false⟩ {} none 120
      (fun _ => 1/2) (fun _ => 0) (fun _ => AttemptOutcome.ok 10 100)).1
      = Except.error RouterError.allUnavailable
    ∧ (Router.useModelWithInfo pbTriv stC8w [provC1w] "T" ⟨some "hi", none, false⟩ {} none 120
      (fun _ => 1/2) (fun _ => 0) (fun _ => AttemptOutcome.ok 10 100)).2.sessionSpent
      = stC8w.sessionSpent := by
  have h := claim_C8_all_unavailable pbTriv stC8w [provC1w] "T" ⟨some "hi", none, false⟩ {}
    none 120 (fun _ => 1/2) (fun _ => 0) (fun _ => AttemptOutcome.ok 10 100)
    rfl
    (by
      simp [RoutingPolicy.select, resolveOptions, selectLoop, Router.hintCandidates,
        Router.effectiveOptions, derivedPromptLength, stC8w, cbC8w, provC1w,
        CircuitBreaker.isOpen, tkey, sortByScoreDesc])
  exact ⟨h.1, h.2.2.1⟩

/-- Breaker for the C8 counterexample: open entry whose cool-off HAS
elapsed at the query time. -/
def cbC8x : CircuitBreaker :=
  ⟨⟨3, 50⟩, fun k => if k = tkey "P" "T" then some ⟨BState.opened, 3, some 100⟩ else none⟩

/-- Router state for the C8 counterexample: a tiny nonzero budget. -/
def stC8x : RouterState := ⟨Telemetry.empty 200, cbC8x, 300000, 2, some (1/10000000), 0⟩

/-- C8 counterexample to the claim as stated: at now = 200 the open
circuit has cooled off, so the rank query PROMOTES it to half-open (a
CircuitBreaker transition) and then the budget ceiling excludes the
candidate (estimated cost 3/4000000 > remaining 1/10000000); dispatch
fails with AllUnavailable, yet the breaker entry changed. -/
theorem claim_C8_all_unavailable_counterexample :
    (Router.useModelWithInfo pbC1 stC8x [provC1] "T" ⟨some "hi", none, false⟩ {} none 200
      (fun _ => 1/2) (fun _ => 0) (fun _ => AttemptOutcome.ok 10 100)).1
      = Except.error RouterError.allUnavailable
    ∧ stC8x.circuit.map (tkey "P" "T") = some ⟨BState.opened, 3, some 100⟩
    ∧ (Router.useModelWithInfo pbC1 stC8x [provC1] "T" ⟨some "hi", none, false⟩ {} none 200
      (fun _ => 1/2) (fun _ => 0) (fun _ => AttemptOutcome.ok 10 100)).2.circuit.map
        (tkey "P" "T") = some ⟨BState.halfOpen, 3, some 100⟩ := by
  have hqlen : (("hi".length : ℕ) : ℚ) = 2 := by
    rw [show "hi".length = 2 from rfl]
    norm_num
  have hm : ¬"m" = "" := by decide
  have hc1 : ⌈(1:ℚ)/2⌉ = (1:ℤ) := by rw [Int.ceil_eq_iff]; norm_num
  have hc1b : ⌈(2:ℚ)/4⌉ = (1:ℤ) := by rw [Int.ceil_eq_iff]; norm_num
  have hc2 : ⌈((1:ℤ):ℚ) * (1/5)⌉ = (1:ℤ) := by rw [Int.ceil_eq_iff]; norm_num
  have hc2b : ⌈(1:ℚ) * (1/5)⌉ = (1:ℤ) := by rw [Int.ceil_eq_iff]; norm_num
  have hc2c : ⌈(1:ℚ)/5⌉ = (1:ℤ) := by rw [Int.ceil_eq_iff]; norm_num
  refine ⟨?_, by simp [stC8x, cbC8x], ?_⟩ <;>
    norm_num [Router.useModelWithInfo, Router.hintCandidates, Router.effectiveOptions,
      derivedPromptLength, RoutingPolicy.select, resolveOptions, selectLoop, scoreCandidate,
      candidateCostEstimate, sortByScoreDesc, insertByScore, CircuitBreaker.isOpen,
      Telemetry.empty, Telemetry.getStats, CostEstimator.estimateCostWithVariance,
      CostEstimator.estimateCost, estimateTokens, PriceBook.getModelCosts,
      pbC1, provC1, stC8x, cbC8x, tkey, hqlen, hm, hc1, hc1b, hc2, hc2b, hc2c]


end SmartRouter
